import Mathlib

/-!
Verification of the urban-eats review-analytics pipeline
(src/urban-eats-model.ipynb) against its specification.

The notebook's pure core is embedded shallowly:
* Python strings are modelled as their sequences of characters
  (`List Char`), matching Python's code-point view of `str`.
* Python numbers entering the score formula are modelled as rationals
  (the formula is exact arithmetic: products, sums and a division by 2).
* the NLTK stopword list and WordNet lemmatizer are third-party data the
  notebook only calls; they enter the embedding as parameters.
-/

/-- A Python string, modelled as its sequence of characters. -/
abbrev PyStr := List Char

/-- A token produced by tokenization: also a sequence of characters. -/
abbrev Word := List Char

/-- From cell-7 of the notebook:

```python
def binarize_label(star_rating):
    if star_rating == 1:
        return 'Very Negative'
    elif star_rating == 2:
        return 'Negative'
    elif star_rating == 3:
        return 'Neutral'
    elif star_rating == 4:
        return 'Positive'
    else:  # star_rating == 5
        return 'Very Positive'
```
-/
def binarize_label (star_rating : ℤ) : String :=
  if star_rating = 1 then "Very Negative"
  else if star_rating = 2 then "Negative"
  else if star_rating = 3 then "Neutral"
  else if star_rating = 4 then "Positive"
  else "Very Positive"

/-- From cell-19 of the notebook:

```python
def calculate_adjusted_aggregate_score(sentiment_score, star_rating, subjectivity_score):
    normalized_star = (star_rating - 3)  # Normalize star rating
    weight = 1 - subjectivity_score if sentiment_score > 0 else 1
    return (sentiment_score * weight + normalized_star) / 2
```
-/
def calculate_adjusted_aggregate_score
    (sentiment_score star_rating subjectivity_score : ℚ) : ℚ :=
  let normalized_star := star_rating - 3
  let weight := if sentiment_score > 0 then 1 - subjectivity_score else 1
  (sentiment_score * weight + normalized_star) / 2

/-- Characters matched by Python's regex class `\w` on ASCII text:
`[A-Za-z0-9_]`.  `Char.isAlpha` and `Char.isDigit` are exactly the ASCII
letter and digit ranges. -/
def isWordChar (c : Char) : Bool :=
  c.isAlpha || c.isDigit || c = '_'

/-- Models `text.lower()` (cell-7): character-wise lowercasing. -/
def pyLower (text : PyStr) : PyStr := text.map Char.toLower

/-- Models `re.sub(r'\W', ' ', text)` (cell-7): every character that is
not a word character is replaced by a space. -/
def removeNonWord (text : PyStr) : PyStr :=
  text.map fun c => if isWordChar c then c else ' '

/-- Emit the (reversed) accumulated word in front of `ws`, unless it is
empty.  Helper for `splitWSAux`. -/
def flushWord (acc : Word) (ws : List Word) : List Word :=
  match acc with
  | [] => ws
  | _ :: _ => acc.reverse :: ws

/-- Splits a character sequence into its maximal whitespace-free runs,
accumulating the current run (reversed) in `acc`. -/
def splitWSAux : PyStr → Word → List Word
  | [], acc => flushWord acc []
  | c :: cs, acc =>
    if c.isWhitespace then flushWord acc (splitWSAux cs [])
    else splitWSAux cs (c :: acc)

/-- The maximal whitespace-free runs of a character sequence. -/
def splitWS (text : PyStr) : List Word := splitWSAux text []

/-- Models Python's `' '.join(words)`: concatenation with a single space
between consecutive words. -/
def joinSpace : List Word → PyStr
  | [] => []
  | [w] => w
  | w :: x :: ws => w ++ ' ' :: joinSpace (x :: ws)

/-- Models `re.sub(r'\s+', ' ', text).strip()` (cell-7): every maximal
whitespace run is replaced by one space and the ends are stripped, which
leaves exactly the maximal whitespace-free runs joined by single
spaces. -/
def collapseSpaces (text : PyStr) : PyStr := joinSpace (splitWS text)

/-- Models `nltk.word_tokenize` on its input in this pipeline.  The text
it receives here consists only of word characters and single spaces
(`removeNonWord` then `collapseSpaces` ran first), and on such text the
NLTK tokenizer is whitespace splitting. -/
def word_tokenize (text : PyStr) : List Word := splitWS text

/-- From cell-7 of the notebook:

```python
def preprocess_text(text):
    text = text.lower()  # Lowercasing
    text = re.sub(r'\W', ' ', text)  # Remove non-word characters
    text = re.sub(r'\s+', ' ', text).strip()  # Remove extra spaces
    words = nltk.word_tokenize(text)
    return ' '.join([lemmatizer.lemmatize(word) for word in words if word not in stop_words])
```

The module-level `stop_words` set (NLTK English stopwords) and
`lemmatizer` (WordNet) are third-party data the notebook only loads, so
they are parameters of the embedding. -/
def preprocess_text (stop_words : List Word) (lemmatize : Word → Word)
    (text : PyStr) : PyStr :=
  let lowered := pyLower text
  let depunct := removeNonWord lowered
  let stripped := collapseSpaces depunct
  let words := word_tokenize stripped
  joinSpace ((words.filter (fun w => !stop_words.contains w)).map lemmatize)

/-- Modelled from the spec: the fitted state of the third-party
`TfidfVectorizer` (src has only its call sites, cells 9, 11 and 19).
Per §4.3 it is a vocabulary of at most 5000 terms together with
inverse-document-frequency weights, frozen after fit. -/
structure FittedVectorizer where
  vocab : List Word
  idf : Word → ℚ

/-- Number of occurrences of the term `t` among `tokens`
(the term frequency of `t` in one document). -/
def termCount (t : Word) (tokens : List Word) : ℕ :=
  (tokens.filter (fun w => w == t)).length

/-- Modelled from the spec: `vectorizer.transform` on one normalized
text (§4.3): term-frequency × inverse-document-frequency weight for
each vocabulary term, in vocabulary order; terms absent from the fitted
vocabulary contribute zero weight and never cause failure. -/
def transform (v : FittedVectorizer) (text : PyStr) : List ℚ :=
  v.vocab.map (fun t => (termCount t (word_tokenize text) : ℚ) * v.idf t)

/-- Number of documents of the tokenized corpus containing the term. -/
def documentFrequency (docs : List (List Word)) (t : Word) : ℕ :=
  (docs.filter (fun d => d.contains t)).length

/-- Modelled from the spec: fitting the vectorizer on a corpus (§4.3):
builds a vocabulary of at most 5000 terms selected by document
frequency, and inverse-document-frequency weights determined by the
corpus size and each term's document frequency.  The idf formula itself
lives inside the third-party library, so it is a parameter
`idfWeight : corpus size → document frequency → weight`. -/
def fitVectorizer (idfWeight : ℕ → ℕ → ℚ) (corpus : List PyStr) :
    FittedVectorizer :=
  let docs := corpus.map word_tokenize
  let terms := docs.flatten.dedup
  let vocab := (terms.mergeSort (fun a b =>
    decide (documentFrequency docs b ≤ documentFrequency docs a))).take 5000
  { vocab := vocab
    idf := fun t => idfWeight corpus.length (documentFrequency docs t) }

/-- Modelled from the spec: the fitted state of the logistic-regression
classifier (§4.4): one weight row and one intercept per sentiment
class, labelled by the class name. -/
structure FittedClassifier where
  classes : List (String × List ℚ × ℚ)

/-- Dot product of a weight row with a feature vector. -/
def dotProduct (w x : List ℚ) : ℚ :=
  (List.zipWith (fun a b => a * b) w x).sum

/-- Decision score of one class on a feature vector. -/
def classScore (x : List ℚ) (cls : String × List ℚ × ℚ) : ℚ :=
  dotProduct cls.2.1 x + cls.2.2

/-- Modelled from the spec: `model.predict` on one feature vector
(§4.4): the label of the most probable — highest-scoring — class, the
first such class on ties. -/
def predict (m : FittedClassifier) (x : List ℚ) : String :=
  match m.classes with
  | [] => ""
  | c :: cs =>
    (cs.foldl (fun best cls =>
      if classScore x cls > classScore x best then cls else best) c).1

/-- Modelled from the spec: a persisted artifact — the fitted
vectorizer or the fitted classifier, serialized as two independent
durable artifacts (§4.6; joblib itself is third-party). -/
inductive Artifact where
  | vec (v : FittedVectorizer)
  | clf (m : FittedClassifier)

/-- Modelled from the spec: durable storage keyed by file path (§4.6),
most recent write first. -/
def Store := List (String × Artifact)

/-- Modelled from the spec: `dump(obj, path)` (cell-13) writes the
artifact at the path; a later write to the same path shadows an earlier
one. -/
def dump (a : Artifact) (path : String) (st : Store) : Store :=
  (path, a) :: st

/-- Modelled from the spec: `load(path)` (cell-15) reads the artifact
stored at the path, failing (`none`) when the path holds nothing. -/
def load (path : String) : Store → Option Artifact
  | [] => none
  | (p, a) :: st => if p == path then some a else load path st

/-- Inference for one raw text with a vectorizer/classifier pair, as in
cell-19: vectorize the preprocessed text, then predict. -/
def pipelinePredict (stop_words : List Word) (lemmatize : Word → Word)
    (v : FittedVectorizer) (m : FittedClassifier) (text : PyStr) : String :=
  predict m (transform v (preprocess_text stop_words lemmatize text))

/-- Modelled from the spec: one call on the vectorizer object after its
initialization — fitting on a corpus (cell-11) or transforming one text
(cell-19). -/
inductive VecOp where
  | fitOp (corpus : List PyStr)
  | transformOp (text : PyStr)

/-- Whether a vectorizer call is a fit. -/
def isFitOp : VecOp → Bool
  | VecOp.fitOp _ => true
  | VecOp.transformOp _ => false

/-- Modelled from the spec: the vectorizer's internal state across
calls: `none` before any fit, `some` the fitted state after.  Fitting
replaces the state (§4.3: it must be called at most once per model
generation); `transform` only reads the fitted vocabulary and never
changes it (§4.3: vocabulary frozen post-fit, unseen terms never expand
it). -/
def stepVec (idfWeight : ℕ → ℕ → ℚ) (st : Option FittedVectorizer) :
    VecOp → Option FittedVectorizer
  | VecOp.fitOp corpus => some (fitVectorizer idfWeight corpus)
  | VecOp.transformOp _ => st

/-- The vectorizer state after a sequence of calls. -/
def runVec (idfWeight : ℕ → ℕ → ℚ) (st : Option FittedVectorizer)
    (ops : List VecOp) : Option FittedVectorizer :=
  ops.foldl (stepVec idfWeight) st

/-- C1: for every sentiment score `s ∈ {-2,-1,0,1,2}`, star rating
`r ∈ [1,5]` and subjectivity `u ∈ [0,1]`,
`calculate_adjusted_aggregate_score s r u = (s * w + (r - 3)) / 2` with
`w = 1 - u` when `s > 0` and `w = 1` otherwise; in particular the score is
`0` at `(0, 3, u)` for any `u`, `-2` at `(-2, 1, 0)` and `1` at `(2, 5, 1)`. -/
theorem C1_adjusted_aggregate_score_formula (s r u : ℚ)
    (hs : s = -2 ∨ s = -1 ∨ s = 0 ∨ s = 1 ∨ s = 2)
    (hr : 1 ≤ r ∧ r ≤ 5) (hu : 0 ≤ u ∧ u ≤ 1) :
    calculate_adjusted_aggregate_score s r u
        = (s * (if s > 0 then 1 - u else 1) + (r - 3)) / 2
      ∧ calculate_adjusted_aggregate_score 0 3 u = 0
      ∧ calculate_adjusted_aggregate_score (-2) 1 0 = -2
      ∧ calculate_adjusted_aggregate_score 2 5 1 = 1 := by
  refine ⟨rfl, ?_, ?_, ?_⟩ <;> simp [calculate_adjusted_aggregate_score] <;> norm_num

/-- Witness for C1 at the concrete input `s = 0`, `r = 3`, `u = 0`. -/
theorem C1_adjusted_aggregate_score_formula_witness :
    calculate_adjusted_aggregate_score 0 3 0
      = ((0 : ℚ) * (if (0 : ℚ) > 0 then 1 - 0 else 1) + (3 - 3)) / 2 :=
  (C1_adjusted_aggregate_score_formula 0 3 0 (by norm_num) (by norm_num)
    (by norm_num)).1

/-- C2: the aggregate score is asymmetric in subjectivity: for fixed
`s > 0` and `r` it is monotonically non-increasing in `u` over `[0,1]`,
and for fixed `s ≤ 0` and `r` it does not depend on `u` at all. -/
theorem C2_subjectivity_asymmetry (s r u₁ u₂ : ℚ)
    (hu₁ : 0 ≤ u₁ ∧ u₁ ≤ 1) (hu₂ : 0 ≤ u₂ ∧ u₂ ≤ 1) (hle : u₁ ≤ u₂) :
    (0 < s →
      calculate_adjusted_aggregate_score s r u₂
        ≤ calculate_adjusted_aggregate_score s r u₁)
    ∧ (s ≤ 0 →
      calculate_adjusted_aggregate_score s r u₁
        = calculate_adjusted_aggregate_score s r u₂) := by
  constructor
  · intro hs
    simp only [calculate_adjusted_aggregate_score, if_pos hs]
    have hmul : s * (1 - u₂) ≤ s * (1 - u₁) :=
      mul_le_mul_of_nonneg_left (by linarith) (le_of_lt hs)
    linarith
  · intro hs
    have hns : ¬ s > 0 := not_lt.mpr hs
    simp [calculate_adjusted_aggregate_score, if_neg hns]

/-- Witness for C2 at `s = 1`, `r = 3`, `u₁ = 0`, `u₂ = 1`. -/
theorem C2_subjectivity_asymmetry_witness :
    calculate_adjusted_aggregate_score 1 3 1
      ≤ calculate_adjusted_aggregate_score 1 3 0 :=
  (C2_subjectivity_asymmetry 1 3 0 1 (by norm_num) (by norm_num)
    (by norm_num)).1 (by norm_num)

/-- C3: the claim says an out-of-range star rating must fail with a
validation error; the code instead reaches the final `else` branch and
returns the sentiment category `"Very Positive"` — shown here by
evaluating `binarize_label` at the failing inputs `0`, `6` and `-1`. -/
theorem C3_binarize_label_out_of_range_returns_category :
    binarize_label 0 = "Very Positive"
    ∧ binarize_label 6 = "Very Positive"
    ∧ binarize_label (-1) = "Very Positive" := by
  refine ⟨?_, ?_, ?_⟩ <;> rfl

/-- C4: on the valid domain `{1,2,3,4,5}`, `binarize_label` maps
`1 ↦ Very Negative`, `2 ↦ Negative`, `3 ↦ Neutral`, `4 ↦ Positive`,
`5 ↦ Very Positive`, injectively, and onto all five categories. -/
theorem C4_binarize_label_bijection :
    binarize_label 1 = "Very Negative"
    ∧ binarize_label 2 = "Negative"
    ∧ binarize_label 3 = "Neutral"
    ∧ binarize_label 4 = "Positive"
    ∧ binarize_label 5 = "Very Positive"
    ∧ (∀ m ∈ ({1, 2, 3, 4, 5} : Finset ℤ), ∀ n ∈ ({1, 2, 3, 4, 5} : Finset ℤ),
        binarize_label m = binarize_label n → m = n)
    ∧ (∀ lab ∈ ["Very Negative", "Negative", "Neutral", "Positive",
        "Very Positive"],
        ∃ n ∈ ({1, 2, 3, 4, 5} : Finset ℤ), binarize_label n = lab) := by
  decide

/-- C10: `binarize_label` is total over ℤ and sends every input other
than `1`, `2`, `3`, `4` — including out-of-range values — to the final
`else` branch, returning `"Very Positive"`. -/
theorem C10_binarize_label_default_branch (n : ℤ)
    (h1 : n ≠ 1) (h2 : n ≠ 2) (h3 : n ≠ 3) (h4 : n ≠ 4) :
    binarize_label n = "Very Positive" := by
  simp [binarize_label, h1, h2, h3, h4]

/-- Witness for C10 at the concrete out-of-range input `n = 0`. -/
theorem C10_binarize_label_default_branch_witness :
    binarize_label 0 = "Very Positive" :=
  C10_binarize_label_default_branch 0 (by decide) (by decide) (by decide)
    (by decide)

/-- A map whose function fixes every member of the list is the identity
on that list. -/
theorem map_eq_self_of_fixed {α : Type} {l : List α} {f : α → α}
    (h : ∀ a ∈ l, f a = a) : l.map f = l := by
  induction l with
  | nil => rfl
  | cons a as ih =>
    simp only [List.map_cons]
    rw [h a (by simp), ih (fun b hb => h b (by simp [hb]))]

/-- Word characters are never whitespace. -/
theorem isWordChar_not_whitespace {c : Char} (h : isWordChar c = true) :
    c.isWhitespace = false := by
  cases hw : c.isWhitespace
  · rfl
  · exfalso
    simp only [Char.isWhitespace, Bool.or_eq_true, decide_eq_true_eq] at hw
    rcases hw with ((h1 | h1) | h1) | h1 <;> subst h1 <;>
      exact absurd h (by decide)

/-- Flushing a nonempty accumulated word prepends its reversal. -/
theorem flushWord_of_ne_nil {acc : Word} (h : acc ≠ []) (ws : List Word) :
    flushWord acc ws = acc.reverse :: ws := by
  cases acc with
  | nil => exact absurd rfl h
  | cons a as => rfl

/-- Consuming a whitespace-free word moves it into the accumulator. -/
theorem splitWSAux_append_word {w : Word}
    (hw : ∀ c ∈ w, c.isWhitespace = false) :
    ∀ (s : PyStr) (acc : Word),
      splitWSAux (w ++ s) acc = splitWSAux s (w.reverse ++ acc) := by
  induction w with
  | nil => intro s acc; rfl
  | cons c cs ih =>
    intro s acc
    have hc : c.isWhitespace = false := hw c (by simp)
    show splitWSAux (c :: (cs ++ s)) acc = _
    simp only [splitWSAux, hc, Bool.false_eq_true, if_false]
    rw [ih (fun d hd => hw d (by simp [hd])) s (c :: acc)]
    simp [List.append_assoc]

/-- Joining well-formed words with single spaces and re-splitting on
whitespace recovers exactly the original words. -/
theorem splitWS_joinSpace (L : List Word)
    (hL : ∀ w ∈ L, w ≠ [] ∧ ∀ c ∈ w, c.isWhitespace = false) :
    splitWS (joinSpace L) = L := by
  induction L with
  | nil => rfl
  | cons w L ih =>
    obtain ⟨hne, hwc⟩ := hL w (by simp)
    have hrevne : w.reverse ≠ [] := by
      intro hr
      exact hne (by simpa using congrArg List.reverse hr)
    cases L with
    | nil =>
      show splitWS w = [w]
      have : splitWSAux (w ++ []) [] = splitWSAux [] (w.reverse ++ []) :=
        splitWSAux_append_word hwc [] []
      rw [List.append_nil, List.append_nil] at this
      rw [splitWS, this]
      show flushWord w.reverse [] = [w]
      rw [flushWord_of_ne_nil hrevne, List.reverse_reverse]
    | cons x M =>
      show splitWS (w ++ ' ' :: joinSpace (x :: M)) = w :: x :: M
      have h1 : splitWSAux (w ++ ' ' :: joinSpace (x :: M)) []
          = splitWSAux (' ' :: joinSpace (x :: M)) (w.reverse ++ []) :=
        splitWSAux_append_word hwc (' ' :: joinSpace (x :: M)) []
      rw [List.append_nil] at h1
      rw [splitWS, h1]
      show (if (' ').isWhitespace
          then flushWord w.reverse (splitWSAux (joinSpace (x :: M)) [])
          else splitWSAux (joinSpace (x :: M)) (' ' :: w.reverse)) = _
      rw [if_pos (by decide), flushWord_of_ne_nil hrevne, List.reverse_reverse]
      exact congrArg (w :: ·) (ih (fun v hv => hL v (by simp [hv])))

/-- Every character of a space-join is a space or belongs to one of the
joined words. -/
theorem mem_joinSpace {L : List Word} :
    ∀ c ∈ joinSpace L, c = ' ' ∨ ∃ w ∈ L, c ∈ w := by
  induction L with
  | nil => intro c hc; cases hc
  | cons w L ih =>
    cases L with
    | nil =>
      intro c hc
      exact Or.inr ⟨w, by simp, hc⟩
    | cons x M =>
      intro c hc
      have hc' : c ∈ w ++ ' ' :: joinSpace (x :: M) := hc
      rcases List.mem_append.mp hc' with h | h
      · exact Or.inr ⟨w, by simp, h⟩
      · rcases List.mem_cons.mp h with h | h
        · exact Or.inl h
        · rcases ih c h with h | ⟨v, hv, hcv⟩
          · exact Or.inl h
          · exact Or.inr ⟨v, by simp [hv], hcv⟩

/-- C5: `preprocess_text` is exactly, in order: lowercasing, replacing
each character outside `[A-Za-z0-9_]` with a space, collapsing
whitespace runs and trimming, tokenizing, dropping stopword tokens,
lemmatizing the survivors, and joining with single spaces; the empty
string — and any input whose tokens are all removed — yields the empty
string. -/
theorem C5_preprocess_text_steps (stop_words : List Word)
    (lemmatize : Word → Word) (text : PyStr) :
    preprocess_text stop_words lemmatize text
      = joinSpace (((word_tokenize (collapseSpaces (removeNonWord
          (pyLower text)))).filter
            (fun w => !stop_words.contains w)).map lemmatize)
    ∧ preprocess_text stop_words lemmatize [] = []
    ∧ ((word_tokenize (collapseSpaces (removeNonWord
          (pyLower text)))).filter (fun w => !stop_words.contains w) = []
        → preprocess_text stop_words lemmatize text = []) := by
  refine ⟨rfl, rfl, fun h => ?_⟩
  show joinSpace (((word_tokenize (collapseSpaces (removeNonWord
      (pyLower text)))).filter (fun w => !stop_words.contains w)).map
        lemmatize) = []
  rw [h]
  rfl

/-- Witness for C5 at a concrete stopword list, lemmatizer and text. -/
theorem C5_preprocess_text_steps_witness :
    preprocess_text [['t', 'h', 'e']] (fun w => w)
        ['T', 'h', 'e', '!', '!'] = [] :=
  (C5_preprocess_text_steps [['t', 'h', 'e']] (fun w => w)
    ['T', 'h', 'e', '!', '!']).2.2 (by decide)

/-- A filter whose predicate holds on every member of the list keeps the
whole list. -/
theorem filter_eq_self_of_true {α : Type} {l : List α} {p : α → Bool}
    (h : ∀ a ∈ l, p a = true) : l.filter p = l := by
  induction l with
  | nil => rfl
  | cons a as ih =>
    rw [List.filter_cons_of_pos (h a (by simp)),
      ih (fun b hb => h b (by simp [hb]))]

/-- Normalizing a space-join of well-formed, stopword-free,
lemmatization-fixed tokens returns it unchanged. -/
theorem preprocess_text_fixed_of_good_tokens (stop_words : List Word)
    (lemmatize : Word → Word) (toks : List Word)
    (h : ∀ w ∈ toks, w ≠ [] ∧ (∀ c ∈ w, isWordChar c = true ∧ c.toLower = c)
      ∧ stop_words.contains w = false ∧ lemmatize w = w) :
    preprocess_text stop_words lemmatize (joinSpace toks)
      = joinSpace toks := by
  have hgood : ∀ w ∈ toks, w ≠ [] ∧ ∀ c ∈ w, c.isWhitespace = false := by
    intro w hw
    obtain ⟨hne, hch, _, _⟩ := h w hw
    exact ⟨hne, fun c hc => isWordChar_not_whitespace (hch c hc).1⟩
  have h1 : pyLower (joinSpace toks) = joinSpace toks := by
    apply map_eq_self_of_fixed
    intro c hc
    rcases mem_joinSpace c hc with h0 | ⟨w, hw, hcw⟩
    · subst h0; decide
    · exact ((h w hw).2.1 c hcw).2
  have h2 : removeNonWord (joinSpace toks) = joinSpace toks := by
    apply map_eq_self_of_fixed
    intro c hc
    rcases mem_joinSpace c hc with h0 | ⟨w, hw, hcw⟩
    · subst h0; decide
    · simp [((h w hw).2.1 c hcw).1]
  have h3 : splitWS (joinSpace toks) = toks := splitWS_joinSpace toks hgood
  have hfilter : toks.filter (fun w => !stop_words.contains w) = toks :=
    filter_eq_self_of_true (fun w hw => by
      show (!stop_words.contains w) = true
      rw [(h w hw).2.2.1]
      rfl)
  have hmap : toks.map lemmatize = toks :=
    map_eq_self_of_fixed (fun w hw => (h w hw).2.2.2)
  show joinSpace (((word_tokenize (collapseSpaces (removeNonWord
      (pyLower (joinSpace toks))))).filter
        (fun w => !stop_words.contains w)).map lemmatize) = joinSpace toks
  rw [h1, h2]
  show joinSpace (((splitWS (joinSpace (splitWS (joinSpace toks)))).filter
      (fun w => !stop_words.contains w)).map lemmatize) = joinSpace toks
  rw [h3, h3, hfilter, hmap]

/-- C7: `preprocess_text` is idempotent on its own outputs: whenever the
tokens of the normalized form are nonempty lowercase word-character
strings outside the stopword set and fixed points of the lemmatizer,
normalizing the normalized form returns it unchanged. -/
theorem C7_preprocess_text_idempotent (stop_words : List Word)
    (lemmatize : Word → Word) (text : PyStr)
    (h : ∀ w ∈ ((word_tokenize (collapseSpaces (removeNonWord
          (pyLower text)))).filter
            (fun w => !stop_words.contains w)).map lemmatize,
        w ≠ [] ∧ (∀ c ∈ w, isWordChar c = true ∧ c.toLower = c)
          ∧ stop_words.contains w = false ∧ lemmatize w = w) :
    preprocess_text stop_words lemmatize
        (preprocess_text stop_words lemmatize text)
      = preprocess_text stop_words lemmatize text := by
  have hrw : preprocess_text stop_words lemmatize text
      = joinSpace (((word_tokenize (collapseSpaces (removeNonWord
          (pyLower text)))).filter
            (fun w => !stop_words.contains w)).map lemmatize) := rfl
  rw [hrw]
  exact preprocess_text_fixed_of_good_tokens stop_words lemmatize _ h

/-- Witness for C7 at a concrete stopword list, lemmatizer and text. -/
theorem C7_preprocess_text_idempotent_witness :
    preprocess_text [['t', 'h', 'e']] (fun w => w)
        (preprocess_text [['t', 'h', 'e']] (fun w => w)
          ['D', 'o', 'g', '!', ' ', 't', 'h', 'e', ' ', 'c', 'a', 't'])
      = preprocess_text [['t', 'h', 'e']] (fun w => w)
          ['D', 'o', 'g', '!', ' ', 't', 'h', 'e', ' ', 'c', 'a', 't'] :=
  C7_preprocess_text_idempotent [['t', 'h', 'e']] (fun w => w)
    ['D', 'o', 'g', '!', ' ', 't', 'h', 'e', ' ', 'c', 'a', 't'] (by decide)

/-- A term that occurs in none of the tokens has term count zero. -/
theorem termCount_eq_zero {t : Word} {tokens : List Word}
    (h : ∀ w ∈ tokens, w ≠ t) : termCount t tokens = 0 := by
  induction tokens with
  | nil => rfl
  | cons w ws ih =>
    unfold termCount
    rw [List.filter_cons_of_neg]
    · exact ih (fun u hu => h u (by simp [hu]))
    · simp [h w (by simp)]

/-- The best-of fold over classifier classes returns its seed or a list
member. -/
theorem foldl_best_mem (x : List ℚ) (cs : List (String × List ℚ × ℚ)) :
    ∀ best : String × List ℚ × ℚ,
      cs.foldl (fun b cls =>
          if classScore x cls > classScore x b then cls else b) best = best
      ∨ cs.foldl (fun b cls =>
          if classScore x cls > classScore x b then cls else b) best ∈ cs := by
  induction cs with
  | nil => intro best; exact Or.inl rfl
  | cons c cs ih =>
    intro best
    simp only [List.foldl_cons]
    rcases ih (if classScore x c > classScore x best then c else best)
      with h | h
    · rw [h]
      by_cases hc : classScore x c > classScore x best
      · rw [if_pos hc]; exact Or.inr (by simp)
      · rw [if_neg hc]; exact Or.inl rfl
    · exact Or.inr (List.mem_cons_of_mem _ h)

/-- On a classifier with at least one class, `predict` returns one of
the class labels. -/
theorem predict_mem_classes (m : FittedClassifier) (x : List ℚ)
    (hm : m.classes ≠ []) :
    predict m x ∈ m.classes.map (fun c => c.1) := by
  unfold predict
  cases hcl : m.classes with
  | nil => exact absurd hcl hm
  | cons c cs =>
    show (cs.foldl (fun best cls =>
        if classScore x cls > classScore x best then cls else best) c).1
      ∈ (c :: cs).map (fun c => c.1)
    rcases foldl_best_mem x cs c with h | h
    · rw [h]; exact List.mem_map_of_mem _ (by simp)
    · exact List.mem_map_of_mem _ (by simp [h])

/-- C6: `transform` on a fitted vectorizer is total — every text gets a
feature vector of the vocabulary's dimension; a text whose tokens all
fall outside the fitted vocabulary gets the all-zero vector; and the
classifier's `predict` still returns one of its class labels on that
zero vector. -/
theorem C6_transform_oov_zero_predict_labeled (v : FittedVectorizer)
    (m : FittedClassifier) (text : PyStr)
    (hoov : ∀ w ∈ word_tokenize text, w ∉ v.vocab)
    (hm : m.classes ≠ []) :
    (∀ t : PyStr, (transform v t).length = v.vocab.length)
    ∧ transform v text = v.vocab.map (fun _ => (0 : ℚ))
    ∧ predict m (transform v text) ∈ m.classes.map (fun c => c.1) := by
  refine ⟨fun t => by simp [transform], ?_, predict_mem_classes m _ hm⟩
  unfold transform
  apply List.map_congr_left
  intro t ht
  rw [termCount_eq_zero (fun w hw heq => hoov w hw (heq ▸ ht))]
  simp

/-- Witness for C6 at a concrete vectorizer, classifier and
out-of-vocabulary text. -/
theorem C6_transform_oov_zero_predict_labeled_witness :
    transform ⟨[['c', 'a', 't']], fun _ => 1⟩ ['d', 'o', 'g']
      = [['c', 'a', 't']].map (fun _ => (0 : ℚ)) :=
  (C6_transform_oov_zero_predict_labeled ⟨[['c', 'a', 't']], fun _ => 1⟩
    ⟨[("Neutral", [0], 0)]⟩ ['d', 'o', 'g'] (by decide)
    (List.cons_ne_nil _ _)).2.1

/-- C8: dumping the fitted classifier and vectorizer at their two paths
and loading them back yields exactly the original pair, so the loaded
pair's predictions agree with the originals' on every batch of texts. -/
theorem C8_persistence_round_trip (v : FittedVectorizer)
    (m : FittedClassifier) (st : Store)
    (model_file_path vectorizer_file_path : String)
    (hne : model_file_path ≠ vectorizer_file_path) :
    load model_file_path
        (dump (Artifact.vec v) vectorizer_file_path
          (dump (Artifact.clf m) model_file_path st))
      = some (Artifact.clf m)
    ∧ load vectorizer_file_path
        (dump (Artifact.vec v) vectorizer_file_path
          (dump (Artifact.clf m) model_file_path st))
      = some (Artifact.vec v)
    ∧ ∀ (stop_words : List Word) (lemmatize : Word → Word)
        (v2 : FittedVectorizer) (m2 : FittedClassifier),
        load vectorizer_file_path
            (dump (Artifact.vec v) vectorizer_file_path
              (dump (Artifact.clf m) model_file_path st))
          = some (Artifact.vec v2) →
        load model_file_path
            (dump (Artifact.vec v) vectorizer_file_path
              (dump (Artifact.clf m) model_file_path st))
          = some (Artifact.clf m2) →
        ∀ batch : List PyStr,
          batch.map (pipelinePredict stop_words lemmatize v2 m2)
            = batch.map (pipelinePredict stop_words lemmatize v m) := by
  have hbeq : (vectorizer_file_path == model_file_path) = false := by
    rw [beq_eq_false_iff_ne]
    exact fun hcontra => hne hcontra.symm
  have hload_m : load model_file_path
      (dump (Artifact.vec v) vectorizer_file_path
        (dump (Artifact.clf m) model_file_path st))
      = some (Artifact.clf m) := by
    show (if vectorizer_file_path == model_file_path
        then some (Artifact.vec v)
        else load model_file_path (dump (Artifact.clf m) model_file_path st))
      = some (Artifact.clf m)
    rw [if_neg (by simp [hbeq])]
    show (if model_file_path == model_file_path then some (Artifact.clf m)
        else load model_file_path st) = some (Artifact.clf m)
    rw [if_pos (by simp)]
  have hload_v : load vectorizer_file_path
      (dump (Artifact.vec v) vectorizer_file_path
        (dump (Artifact.clf m) model_file_path st))
      = some (Artifact.vec v) := by
    show (if vectorizer_file_path == vectorizer_file_path
        then some (Artifact.vec v)
        else load vectorizer_file_path
          (dump (Artifact.clf m) model_file_path st))
      = some (Artifact.vec v)
    rw [if_pos (by simp)]
  refine ⟨hload_m, hload_v, ?_⟩
  intro stop_words lemmatize v2 m2 hv2 hm2 batch
  rw [hload_v] at hv2
  rw [hload_m] at hm2
  have hv : v2 = v := by
    injection hv2 with h1
    injection h1.symm
  have hm' : m2 = m := by
    injection hm2 with h1
    injection h1.symm
  rw [hv, hm']

/-- Witness for C8 at concrete artifacts, the notebook's two file
paths, and an empty prior store. -/
theorem C8_persistence_round_trip_witness :
    load "LRM.joblib"
        (dump (Artifact.vec ⟨[], fun _ => 0⟩) "vectorizer.joblib"
          (dump (Artifact.clf ⟨[]⟩) "LRM.joblib" []))
      = some (Artifact.clf ⟨[]⟩) :=
  (C8_persistence_round_trip ⟨[], fun _ => 0⟩ ⟨[]⟩ []
    "LRM.joblib" "vectorizer.joblib" (by decide)).1

/-- C9: after the one training-time fit, running any further sequence
of vectorizer calls containing no fit leaves the vectorizer state —
vocabulary, index mapping and idf weights — exactly the fitted one, so
every inference-time `transform` reads that same frozen vocabulary. -/
theorem C9_vocabulary_frozen_after_fit (idfWeight : ℕ → ℕ → ℚ)
    (corpus : List PyStr) (ops : List VecOp)
    (hops : ∀ op ∈ ops, isFitOp op = false) :
    runVec idfWeight (some (fitVectorizer idfWeight corpus)) ops
        = some (fitVectorizer idfWeight corpus)
    ∧ (runVec idfWeight (some (fitVectorizer idfWeight corpus)) ops).map
          FittedVectorizer.vocab
        = some (fitVectorizer idfWeight corpus).vocab := by
  have hrun : ∀ (l : List VecOp), (∀ op ∈ l, isFitOp op = false) →
      runVec idfWeight (some (fitVectorizer idfWeight corpus)) l
        = some (fitVectorizer idfWeight corpus) := by
    intro l
    induction l with
    | nil => intro _; rfl
    | cons op rest ih =>
      intro hl
      cases op with
      | fitOp c =>
        have hfalse : isFitOp (VecOp.fitOp c) = false :=
          hl (VecOp.fitOp c) (by simp)
        simp [isFitOp] at hfalse
      | transformOp t =>
        show runVec idfWeight
          (stepVec idfWeight (some (fitVectorizer idfWeight corpus))
            (VecOp.transformOp t)) rest = _
        exact ih (fun o ho => hl o (by simp [ho]))
  refine ⟨hrun ops hops, ?_⟩
  rw [hrun ops hops, Option.map_some']

/-- Witness for C9 at a concrete corpus and a fit-free call trace. -/
theorem C9_vocabulary_frozen_after_fit_witness :
    runVec (fun _ _ => 1) (some (fitVectorizer (fun _ _ => 1)
        [['h', 'i']])) [VecOp.transformOp ['y', 'o']]
      = some (fitVectorizer (fun _ _ => 1) [['h', 'i']]) :=
  (C9_vocabulary_frozen_after_fit (fun _ _ => 1) [['h', 'i']]
    [VecOp.transformOp ['y', 'o']] (by decide)).1
